import Mathlib

/-!
# Raw-mode terminal core of `vim.c`

A shallow embedding of `src/vim.c`: the terminal attribute handling
(`enableRawMode`, `disableRawMode`), the fatal-error path (`die`), the key read
(`editorReadKey`), the key dispatch (`editorProcessKeypress`) and `main`.

The C program talks to its environment through `tcgetattr`, `tcsetattr`, `read`,
`perror`, `atexit` and `exit`.  The environment is modelled by a `World`: the
outcome of every system call is scripted by an oracle (`Env`), the terminal
driver's attribute set, `errno` and the list of registered exit handlers are
explicit state, and every call is appended to a trace.
-/

namespace Vim

/-! ## Data model -/

/-- Modelled from the spec: `struct termios` is declared by the platform header
`<termios.h>`, which is not part of the repository.  The spec describes it as the
input, output, control and local mode flags plus the control-character table.
The flag words are C `tcflag_t` values (unsigned, 32 bits) held as `Nat`. -/
structure Termios where
  c_iflag : Nat
  c_oflag : Nat
  c_cflag : Nat
  c_lflag : Nat
  c_cc : List Nat
deriving DecidableEq, Repr

/-- The platform constants `vim.c` uses by name.  Their values come from
`<termios.h>` and `<errno.h>`, outside the repository, so they are parameters of
the embedding.  `NCCS` is the size of the control-character table. -/
structure Consts where
  BRKINT : Nat
  ICRNL : Nat
  INPCK : Nat
  ISTRIP : Nat
  IXON : Nat
  OPOST : Nat
  CS8 : Nat
  ECHO : Nat
  ICANON : Nat
  IEXTEN : Nat
  ISIG : Nat
  EAGAIN : Nat
  NCCS : Nat
deriving Repr

/-- The values these constants have on Linux (`asm-generic/termbits.h`,
`asm-generic/errno-base.h`); used as the concrete platform in examples. -/
def linux : Consts where
  BRKINT := 0o2
  ICRNL := 0o400
  INPCK := 0o20
  ISTRIP := 0o40
  IXON := 0o2000
  OPOST := 0o1
  CS8 := 0o60
  ECHO := 0o10
  ICANON := 0o2
  IEXTEN := 0o100000
  ISIG := 0o1
  EAGAIN := 11
  NCCS := 32

/-- Outcome of a system call that returns `0` or `-1`: success, or failure with
the value it leaves in `errno`. -/
inductive SysRes where
  | ok
  | err (errno : Nat)
deriving DecidableEq, Repr

/-- Outcome of `read(STDIN_FILENO, &c, 1)`: it returns `1` and stores one byte,
returns `0` (nothing read), or returns `-1` and sets `errno`. -/
inductive ReadRes where
  | byte (b : Nat)
  | zero
  | err (errno : Nat)
deriving DecidableEq, Repr

/-- The functions that can be registered with `atexit`.  `vim.c` registers only
`disableRawMode`. -/
inductive Handler where
  | disableRawMode
deriving DecidableEq, Repr

/-- One observable interaction of the process with its environment. -/
inductive Event where
  | tcgetattr (ok : Bool)
  | tcsetattr (t : Termios) (ok : Bool)
  | atexit (h : Handler)
  | read (r : ReadRes)
  | perror (s : String) (errno : Nat)
  | handler (h : Handler)
deriving DecidableEq, Repr

/-- The scripted environment: the outcome of the `k`-th call (counting from 0)
of each system call. -/
structure Env where
  getRes : Nat → SysRes
  setRes : Nat → SysRes
  readRes : Nat → ReadRes

/-- The state of the process and of the terminal it is attached to. -/
structure World where
  /-- Scripted system-call outcomes. -/
  env : Env
  /-- The attribute set the terminal driver currently holds. -/
  tty : Termios
  /-- The C library's `errno`. -/
  errno : Nat
  /-- Registered exit handlers, most recently registered first. -/
  handlers : List Handler
  /-- Number of `tcgetattr` calls made so far. -/
  nget : Nat
  /-- Number of `tcsetattr` calls made so far. -/
  nset : Nat
  /-- Number of `read` calls made so far. -/
  nread : Nat
  /-- Every interaction so far, oldest first. -/
  trace : List Event
  /-- The program's global `struct termios orig_termios`. -/
  orig_termios : Termios

/-- A C function either returns to its caller or ends the process through
`exit`; `exited` carries the status the process ends with. -/
inductive Res (α : Type) where
  | ret (a : α) (w : World)
  | exited (status : Nat) (w : World)

/-- The world at process start on a terminal whose attributes are `t`: nothing
registered, nothing called, and the global `orig_termios` zero-initialised. -/
def boot (K : Consts) (env : Env) (t : Termios) : World where
  env := env
  tty := t
  errno := 0
  handlers := []
  nget := 0
  nset := 0
  nread := 0
  trace := []
  orig_termios := ⟨0, 0, 0, 0, List.replicate K.NCCS 0⟩

/-! ## System and library calls -/

/-- Call `tcgetattr(STDIN_FILENO, p)`: on success the terminal's attributes are
returned (to be stored through `p`); on failure `errno` is set. -/
def tcgetattr (w : World) : Option Termios × World :=
  match w.env.getRes w.nget with
  | .ok =>
    (some w.tty, { w with nget := w.nget + 1, trace := w.trace ++ [.tcgetattr true] })
  | .err e =>
    (none, { w with nget := w.nget + 1, errno := e, trace := w.trace ++ [.tcgetattr false] })

/-- Call `tcsetattr(STDIN_FILENO, TCSAFLUSH, &t)`: on success the terminal holds
`t`; on failure the terminal is unchanged and `errno` is set.  The result is
`true` when the call returned `0`. -/
def tcsetattr (t : Termios) (w : World) : Bool × World :=
  match w.env.setRes w.nset with
  | .ok =>
    (true, { w with tty := t, nset := w.nset + 1, trace := w.trace ++ [.tcsetattr t true] })
  | .err e =>
    (false, { w with errno := e, nset := w.nset + 1, trace := w.trace ++ [.tcsetattr t false] })

/-- Call `read(STDIN_FILENO, &c, 1)`. -/
def read (w : World) : ReadRes × World :=
  match w.env.readRes w.nread with
  | .byte b => (.byte b, { w with nread := w.nread + 1, trace := w.trace ++ [.read (.byte b)] })
  | .zero => (.zero, { w with nread := w.nread + 1, trace := w.trace ++ [.read .zero] })
  | .err e =>
    (.err e, { w with nread := w.nread + 1, errno := e, trace := w.trace ++ [.read (.err e)] })

/-- Call `perror(s)`: the diagnostic names `s` and describes the current `errno`. -/
def perror (s : String) (w : World) : World :=
  { w with trace := w.trace ++ [.perror s w.errno] }

/-- Call `atexit(h)`; the registration itself is taken to succeed (the program
ignores the return value, and this is the first of the 32 registrations the C
standard guarantees). -/
def atexit (h : Handler) (w : World) : World :=
  { w with handlers := h :: w.handlers, trace := w.trace ++ [.atexit h] }

/-- The exit sequence of the C library over the handlers still to run: each
handler is removed from the list before it is called.  The body of the only
handler, `disableRawMode` (vim.c lines 44-47), is run in place: when its
`tcsetattr` fails it calls `die("tcsetattr")`, that is `perror` followed by a
nested `exit(1)`, which goes on with the handlers that remain and ends the
process with status 1. -/
def exitFrom : List Handler → Nat → World → Nat × World
  | [], status, w => (status, { w with handlers := [] })
  | .disableRawMode :: hs, status, w =>
    let w0 := { w with handlers := hs, trace := w.trace ++ [.handler .disableRawMode] }
    match tcsetattr w0.orig_termios w0 with
    | (true, w1) => exitFrom hs status w1
    | (false, w1) => exitFrom hs 1 (perror "tcsetattr" w1)

/-- Call `exit(status)`: run the registered handlers, then end the process. -/
def exit {α : Type} (status : Nat) (w : World) : Res α :=
  .exited (exitFrom w.handlers status w).1 (exitFrom w.handlers status w).2

/-! ## The program -/

/-- The macro `CTRL_KEY(k)`, `((k) & 31)` (vim.c line 13). -/
def CTRL_KEY (k : Nat) : Nat := k &&& 31

/-- The function `die` (vim.c lines 33-41): `perror(str); exit(1);`. -/
def die {α : Type} (str : String) (w : World) : Res α :=
  exit 1 (perror str w)

/-- The function `disableRawMode` (vim.c lines 44-47). -/
def disableRawMode (w : World) : Res Unit :=
  match tcsetattr w.orig_termios w with
  | (true, w1) => .ret () w1
  | (false, w1) => die "tcsetattr" w1

/-- The value of `~m` once converted to the 32-bit unsigned `tcflag_t`. -/
def bnot32 (m : Nat) : Nat := 2 ^ 32 - 1 - m % 2 ^ 32

/-- The attribute set `raw` that `enableRawMode` builds from `orig_termios`
(vim.c lines 55-111).  A bitwise or of two 32-bit values cannot overflow. -/
def makeRaw (K : Consts) (orig : Termios) : Termios :=
  let raw := orig
  let raw := { raw with
    c_iflag := raw.c_iflag &&& bnot32 (K.BRKINT ||| K.ICRNL ||| K.INPCK ||| K.ISTRIP ||| K.IXON) }
  let raw := { raw with c_oflag := raw.c_oflag &&& bnot32 K.OPOST }
  let raw := { raw with c_cflag := raw.c_cflag ||| K.CS8 }
  let raw := { raw with
    c_lflag := raw.c_lflag &&& bnot32 (K.ECHO ||| K.ICANON ||| K.IEXTEN ||| K.ISIG) }
  raw

/-- The function `enableRawMode` (vim.c lines 50-122). -/
def enableRawMode (K : Consts) (w : World) : Res Unit :=
  match tcgetattr w with
  | (none, w1) => die "tcgetattr" w1
  | (some t, w1) =>
    let w2 := atexit .disableRawMode { w1 with orig_termios := t }
    let raw := makeRaw K w2.orig_termios
    match tcsetattr raw w2 with
    | (true, w3) => .ret () w3
    | (false, w3) => die "tcsetattr" w3

/-- The function `editorReadKey` (vim.c lines 125-132).  Each unit of fuel pays
for one iteration of the `while` loop; `none` means the loop was still running
when the fuel ran out.  The byte is returned as its value `0..255`. -/
def editorReadKey (K : Consts) : Nat → World → Option (Res Nat)
  | 0, _ => none
  | fuel + 1, w =>
    match read w with
    | (.byte b, w1) => some (.ret b w1)
    | (.zero, w1) => editorReadKey K fuel w1
    | (.err _, w1) =>
      if w1.errno ≠ K.EAGAIN then some (die "read" w1) else editorReadKey K fuel w1

/-- The function `editorProcessKeypress` (vim.c lines 135-141); `'q'` is 113. -/
def editorProcessKeypress (K : Consts) (fuel : Nat) (w : World) : Option (Res Unit) :=
  match editorReadKey K fuel w with
  | none => none
  | some (.exited status w1) => some (.exited status w1)
  | some (.ret c w1) => if c = CTRL_KEY 113 then some (exit 0 w1) else some (.ret () w1)

/-- The loop `while(1){ editorProcessKeypress(); }` of `main`: one unit of fuel
per key processed, each key read being given the remaining fuel. -/
def mainLoop (K : Consts) : Nat → World → Option (Nat × World)
  | 0, _ => none
  | fuel + 1, w =>
    match editorProcessKeypress K (fuel + 1) w with
    | none => none
    | some (.exited status w1) => some (status, w1)
    | some (.ret _ w1) => mainLoop K fuel w1

/-- The function `main` (vim.c lines 22-30): the exit status and final world of
the process, or `none` when the fuel ran out. -/
def main (K : Consts) (fuel : Nat) (w : World) : Option (Nat × World) :=
  match enableRawMode K w with
  | .exited status w1 => some (status, w1)
  | .ret _ w1 => mainLoop K fuel w1

/-- The bytes taken from standard input, in order, according to a trace. -/
def bytesConsumed : List Event → List Nat
  | [] => []
  | .read (.byte b) :: es => b :: bytesConsumed es
  | _ :: es => bytesConsumed es

/-- The attribute sets passed to `tcsetattr`, in order, according to a trace. -/
def attrWrites : List Event → List Termios
  | [] => []
  | .tcsetattr t _ :: es => t :: attrWrites es
  | _ :: es => attrWrites es

/-- The world a call leaves behind, whether it returned or ended the process. -/
def Res.world {α : Type} : Res α → World
  | .ret _ w => w
  | .exited _ w => w

/-- What a key read may not touch: `w1` has the environment, terminal
attributes, saved snapshot, registered handlers and attribute-call counts of `w`. -/
def sameTerminal (w w1 : World) : Prop :=
  w1.env = w.env ∧ w1.tty = w.tty ∧ w1.orig_termios = w.orig_termios ∧
    w1.handlers = w.handlers ∧ w1.nget = w.nget ∧ w1.nset = w.nset

/-- A read outcome after which `editorReadKey` goes round its loop again. -/
def retried (K : Consts) (r : ReadRes) : Prop :=
  r = .zero ∨ r = .err K.EAGAIN

/-- The state of a process between the capture and its end: the snapshot holds
`t`, the teardown is the one registered handler, one attribute read was made. -/
def armed (t : Termios) (w : World) : Prop :=
  w.orig_termios = t ∧ w.handlers = [.disableRawMode] ∧ w.nget = 1

/-- The state of a process that ended after the capture of `t`: the snapshot
still holds `t`, one attribute read was made, and the trace shows the teardown
being run and writing `t`; if that write succeeded it is the last event and the
terminal holds `t`. -/
def restored (t : Termios) (w : World) : Prop :=
  w.orig_termios = t ∧ w.nget = 1 ∧
    ∃ pre ok post, w.trace = pre ++ [.handler .disableRawMode, .tcsetattr t ok] ++ post ∧
      (ok = true → post = [] ∧ w.tty = t)

/-! ## Concrete environments used in the examples -/

/-- A cooked-mode attribute set as a Linux terminal typically reports it. -/
def cooked : Termios :=
  ⟨0o42400, 0o5, 0o277, 0o105073, [3, 28, 127, 21, 4, 0, 1, 0, 17, 19, 26, 0, 18, 15, 23, 22,
    0, 0, 0, 0, 0, 0, 0, 0, 0, 0, 0, 0, 0, 0, 0, 0]⟩

/-- The environment scripted by three lists of outcomes: attribute reads,
attribute writes and input reads.  Past the end of its list an attribute call
succeeds and an input read returns zero bytes. -/
def script (gs ss : List SysRes) (rs : List ReadRes) : Env where
  getRes := fun k => gs.getD k .ok
  setRes := fun k => ss.getD k .ok
  readRes := fun k => rs.getD k .zero

/-- An environment in which every attribute call succeeds and the input is the
given list of read outcomes followed by zero-byte reads for ever. -/
def envOf (rs : List ReadRes) : Env := script [] [] rs

/-- A process at start whose input holds the arrow-up sequence `ESC [ A`. -/
def arrowUpInput : World := boot linux (envOf [.byte 0x1B, .byte 0x5B, .byte 0x41]) cooked

/-- A process at start whose input is closed: every read returns zero bytes. -/
def closedInput : World := boot linux (envOf []) cooked

/-- A process at start whose input has two transient failures, then `'a'`. -/
def delayedInput : World :=
  boot linux (envOf [.err linux.EAGAIN, .err linux.EAGAIN, .byte 0x61]) cooked

/-- A process at start whose first read fails with `EIO` (5). -/
def brokenInput : World := boot linux (envOf [.err 5, .byte 0x61]) cooked

/-- A process at start on something that is not a terminal: the attribute read
fails with `ENOTTY` (25). -/
def notATerminal : World := boot linux (script [.err 25] [] [.byte 0x11]) cooked

/-- A process at start that will read `'a'` and then the quit chord. -/
def quitSession : World := boot linux (envOf [.byte 0x61, .byte 0x11]) cooked

/-- A process at start whose raw attribute set cannot be applied (`EIO`). -/
def applyFails : World := boot linux (script [] [.err 5] []) cooked

/-- A process at start that will read the quit chord and whose restoring
attribute write, the second write, fails with `EIO` (5). -/
def quitRestoreFails : World := boot linux (script [] [.ok, .err 5] [.byte 0x11]) cooked

/-- A process in raw mode: `enableRawMode` has run with success. -/
def rawSession : World := (enableRawMode linux (boot linux (envOf []) cooked)).world

/-- A process in raw mode that will read `'a'` and then the quit chord. -/
def quitRaw : World := (enableRawMode linux quitSession).world

/-- A process in raw mode whose third attribute write will fail with `EIO`. -/
def rawSessionFailing : World :=
  (enableRawMode linux (boot linux (script [] [.ok, .ok, .err 5] []) cooked)).world

/-! ## Bit-level facts about `makeRaw` -/

theorem testBit_bnot32 (m i : Nat) :
    (bnot32 m).testBit i = (decide (i < 32) && !(m.testBit i)) := by
  have hlt : m % 2 ^ 32 < 2 ^ 32 := Nat.mod_lt _ (by norm_num)
  have h := Nat.testBit_two_pow_sub_succ hlt i
  rw [Nat.testBit_mod_two_pow] at h
  unfold bnot32
  rw [Nat.sub_sub, Nat.add_comm 1, h]
  by_cases hi : i < 32 <;> simp [hi]

theorem bnot32_clears (x m b : Nat)
    (h : ∀ i, b.testBit i = true → m.testBit i = true) :
    x &&& bnot32 m &&& b = 0 := by
  apply Nat.eq_of_testBit_eq
  intro i
  simp only [Nat.testBit_and, testBit_bnot32, Nat.zero_testBit]
  cases hb : b.testBit i
  · simp
  · simp [h i hb]

theorem or_sets (x b : Nat) : (x ||| b) &&& b = b := by
  apply Nat.eq_of_testBit_eq
  intro i
  simp only [Nat.testBit_and, Nat.testBit_or]
  cases x.testBit i <;> cases b.testBit i <;> rfl

/-! ## The exit sequence -/

/-- Running a registered `disableRawMode` inside `exit` is a call of the function
`disableRawMode`: if it returns the exit sequence goes on, if it dies the process
has ended with that status. -/
theorem exit_cons (status : Nat) (w : World) (hs : List Handler)
    (h : w.handlers = .disableRawMode :: hs) :
    (exit status w : Res Unit) =
      match disableRawMode { w with
          handlers := hs, trace := w.trace ++ [.handler .disableRawMode] } with
      | .ret _ w1 => exit status w1
      | .exited s w1 => .exited s w1 := by
  unfold exit disableRawMode die exit
  rw [h]
  simp only [exitFrom]
  cases hr : w.env.setRes w.nset with
  | ok => simp [tcsetattr, hr]
  | err e => simp [tcsetattr, hr, perror]

/-- With nothing registered `exit` ends the process at once with the status given. -/
theorem exit_nil {α : Type} (status : Nat) (w : World) (h : w.handlers = []) :
    (exit status w : Res α) = .exited status w := by
  unfold exit
  rw [h]
  simp only [exitFrom]
  cases w
  simp_all

/-- The exit sequence only appends to the trace. -/
theorem exitFrom_trace (hs : List Handler) :
    ∀ (status : Nat) (w : World), ∃ rest, (exitFrom hs status w).2.trace = w.trace ++ rest := by
  induction hs with
  | nil => intro status w; exact ⟨[], by simp [exitFrom]⟩
  | cons h hs ih =>
    intro status w
    cases h
    cases hr : w.env.setRes w.nset with
    | ok =>
      obtain ⟨rest, hrest⟩ := ih status { w with
        handlers := hs, tty := w.orig_termios, nset := w.nset + 1,
        trace := w.trace ++ [.handler .disableRawMode] ++ [.tcsetattr w.orig_termios true] }
      exact ⟨.handler .disableRawMode :: .tcsetattr w.orig_termios true :: rest,
        by simp only [exitFrom, tcsetattr, hr]; rw [hrest]; simp⟩
    | err e =>
      obtain ⟨rest, hrest⟩ := ih 1 (perror "tcsetattr" { w with
        handlers := hs, errno := e, nset := w.nset + 1,
        trace := w.trace ++ [.handler .disableRawMode] ++ [.tcsetattr w.orig_termios false] })
      exact ⟨.handler .disableRawMode :: .tcsetattr w.orig_termios false ::
          .perror "tcsetattr" e :: rest,
        by simp only [exitFrom, tcsetattr, hr]; rw [hrest]; simp [perror]⟩

/-- The function `die` only appends to the trace, starting with its diagnostic. -/
theorem die_trace {α : Type} (str : String) (w : World) :
    ∃ rest, (die str w : Res α).world.trace = w.trace ++ [.perror str w.errno] ++ rest := by
  obtain ⟨rest, hrest⟩ := exitFrom_trace (perror str w).handlers 1 (perror str w)
  exact ⟨rest, by simp only [die, exit, Res.world]; rw [hrest]; simp [perror]⟩

theorem bytesConsumed_append (l1 l2 : List Event) :
    bytesConsumed (l1 ++ l2) = bytesConsumed l1 ++ bytesConsumed l2 := by
  induction l1 with
  | nil => rfl
  | cons e es ih =>
    cases e with
    | read r => cases r <;> simp [bytesConsumed, ih]
    | _ => simp [bytesConsumed, ih]

theorem attrWrites_append (l1 l2 : List Event) :
    attrWrites (l1 ++ l2) = attrWrites l1 ++ attrWrites l2 := by
  induction l1 with
  | nil => rfl
  | cons e es ih => cases e <;> simp [attrWrites, ih]

/-- What the exit sequence leaves alone: the environment, the saved snapshot, the
number of attribute reads and of input reads, and the bytes consumed. -/
theorem exitFrom_frame (hs : List Handler) :
    ∀ (status : Nat) (w : World),
      (exitFrom hs status w).2.env = w.env ∧
      (exitFrom hs status w).2.orig_termios = w.orig_termios ∧
      (exitFrom hs status w).2.nget = w.nget ∧
      (exitFrom hs status w).2.nread = w.nread ∧
      bytesConsumed (exitFrom hs status w).2.trace = bytesConsumed w.trace := by
  induction hs with
  | nil => intro status w; simp [exitFrom]
  | cons h hs ih =>
    intro status w
    cases h
    cases hr : w.env.setRes w.nset with
    | ok =>
      have := ih status { w with
        handlers := hs, tty := w.orig_termios, nset := w.nset + 1,
        trace := w.trace ++ [.handler .disableRawMode] ++ [.tcsetattr w.orig_termios true] }
      simpa [exitFrom, tcsetattr, hr, bytesConsumed_append, bytesConsumed] using this
    | err e =>
      have := ih 1 (perror "tcsetattr" { w with
        handlers := hs, errno := e, nset := w.nset + 1,
        trace := w.trace ++ [.handler .disableRawMode] ++ [.tcsetattr w.orig_termios false] })
      simpa [exitFrom, tcsetattr, hr, perror, bytesConsumed_append, bytesConsumed] using this

/-- A process that asks to end with status 1 ends with status 1. -/
theorem exitFrom_status_one (hs : List Handler) :
    ∀ (w : World), (exitFrom hs 1 w).1 = 1 := by
  induction hs with
  | nil => intro w; rfl
  | cons h hs ih =>
    intro w
    cases h
    cases hr : w.env.setRes w.nset <;> simp [exitFrom, tcsetattr, hr, ih]

/-- When every attribute write from now on succeeds, the process ends with the
status passed to `exit`. -/
theorem exitFrom_status_ok (hs : List Handler) :
    ∀ (status : Nat) (w : World), (∀ k, w.nset ≤ k → w.env.setRes k = .ok) →
      (exitFrom hs status w).1 = status := by
  induction hs with
  | nil => intro status w _; rfl
  | cons h hs ih =>
    intro status w hw
    cases h
    have hr := hw w.nset (Nat.le_refl _)
    simp only [exitFrom, tcsetattr, hr]
    exact ih status _ (fun k hk => hw k (Nat.le_of_succ_le hk))

/-- The function `die` ends the process with status 1, after its diagnostic, and
leaves the saved snapshot and the input alone. -/
theorem die_spec {α : Type} (str : String) (w : World) :
    ∃ w1 rest, (die str w : Res α) = .exited 1 w1 ∧
      w1.trace = w.trace ++ [.perror str w.errno] ++ rest ∧
      w1.env = w.env ∧ w1.orig_termios = w.orig_termios ∧ w1.nget = w.nget ∧
      w1.nread = w.nread ∧ bytesConsumed w1.trace = bytesConsumed w.trace := by
  obtain ⟨rest, hrest⟩ := @die_trace α str w
  have hf := exitFrom_frame (perror str w).handlers 1 (perror str w)
  refine ⟨(exitFrom (perror str w).handlers 1 (perror str w)).2, rest, ?_, hrest, ?_⟩
  · simp [die, exit, exitFrom_status_one]
  · simpa [perror, bytesConsumed_append, bytesConsumed] using hf

/-! ## Claims about the terminal attributes -/

/-- C3. Raw attribute set: when the capture succeeds, the first attribute write
of `enableRawMode` passes `makeRaw K` of the captured set, and for every captured
set that value has IXON, ICRNL, OPOST, ECHO, ICANON, ISIG and IEXTEN cleared and
the CS8 bits set. -/
theorem C3_raw_attribute_set (K : Consts) (w : World)
    (hget : w.env.getRes w.nget = .ok) :
    (∃ ok rest, (enableRawMode K w).world.trace =
        w.trace ++ [.tcgetattr true, .atexit .disableRawMode,
          .tcsetattr (makeRaw K w.tty) ok] ++ rest) ∧
    (makeRaw K w.tty).c_iflag &&& K.IXON = 0 ∧
    (makeRaw K w.tty).c_iflag &&& K.ICRNL = 0 ∧
    (makeRaw K w.tty).c_oflag &&& K.OPOST = 0 ∧
    (makeRaw K w.tty).c_lflag &&& K.ECHO = 0 ∧
    (makeRaw K w.tty).c_lflag &&& K.ICANON = 0 ∧
    (makeRaw K w.tty).c_lflag &&& K.ISIG = 0 ∧
    (makeRaw K w.tty).c_lflag &&& K.IEXTEN = 0 ∧
    (makeRaw K w.tty).c_cflag &&& K.CS8 = K.CS8 := by
  refine ⟨?_, ?_, ?_, ?_, ?_, ?_, ?_, ?_, ?_⟩
  · cases hr : w.env.setRes w.nset with
    | ok =>
      exact ⟨true, [], by simp [enableRawMode, tcgetattr, hget, atexit, tcsetattr, hr, Res.world]⟩
    | err e =>
      have hd := @die_trace Unit "tcsetattr" (tcsetattr (makeRaw K w.tty)
        (atexit .disableRawMode { (tcgetattr w).2 with orig_termios := w.tty })).2
      obtain ⟨rest, hrest⟩ := hd
      refine ⟨false, .perror "tcsetattr" e :: rest, ?_⟩
      simp only [tcgetattr, hget, atexit, tcsetattr, hr] at hrest
      simp only [enableRawMode, tcgetattr, hget, atexit, tcsetattr, hr]
      rw [hrest]
      simp
  all_goals
    simp only [makeRaw]
    first
      | exact or_sets _ _
      | (apply bnot32_clears
         intro i hi
         simp [Nat.testBit_or, hi])

/-- Witness for C3 on a cooked Linux terminal. -/
theorem C3_raw_attribute_set_witness :
    closedInput.env.getRes closedInput.nget = .ok ∧
    cooked.c_iflag &&& linux.IXON ≠ 0 ∧ cooked.c_lflag &&& linux.ECHO ≠ 0 ∧
    (makeRaw linux cooked).c_iflag &&& linux.IXON = 0 ∧
    (makeRaw linux cooked).c_lflag &&& linux.ECHO = 0 ∧
    (makeRaw linux cooked).c_cflag &&& linux.CS8 = linux.CS8 :=
  have h := C3_raw_attribute_set linux closedInput rfl
  ⟨rfl, by decide, by decide, h.2.1, h.2.2.2.2.1, h.2.2.2.2.2.2.2.2⟩

/-- C4. Round-trip attribute preservation: when the attribute read and both
attribute writes succeed, `enableRawMode` followed by `disableRawMode` both
return and leave the terminal's attributes equal to the initial ones in every
field. -/
theorem C4_round_trip (K : Consts) (w : World)
    (hget : w.env.getRes w.nget = .ok)
    (hset1 : w.env.setRes w.nset = .ok)
    (hset2 : w.env.setRes (w.nset + 1) = .ok) :
    ∃ w1 w2, enableRawMode K w = .ret () w1 ∧ disableRawMode w1 = .ret () w2 ∧
      w1.tty = makeRaw K w.tty ∧
      w2.tty = w.tty ∧
      w2.tty.c_iflag = w.tty.c_iflag ∧ w2.tty.c_oflag = w.tty.c_oflag ∧
      w2.tty.c_cflag = w.tty.c_cflag ∧ w2.tty.c_lflag = w.tty.c_lflag ∧
      w2.tty.c_cc = w.tty.c_cc := by
  have h1 : enableRawMode K w = .ret ()
      { w with
        tty := makeRaw K w.tty, orig_termios := w.tty, nget := w.nget + 1, nset := w.nset + 1,
        handlers := .disableRawMode :: w.handlers,
        trace := w.trace ++ [.tcgetattr true, .atexit .disableRawMode,
          .tcsetattr (makeRaw K w.tty) true] } := by
    simp [enableRawMode, tcgetattr, hget, atexit, tcsetattr, hset1]
  refine ⟨_, { w with
        tty := w.tty, orig_termios := w.tty, nget := w.nget + 1, nset := w.nset + 1 + 1,
        handlers := .disableRawMode :: w.handlers,
        trace := w.trace ++ [.tcgetattr true, .atexit .disableRawMode,
          .tcsetattr (makeRaw K w.tty) true] ++ [.tcsetattr w.tty true] }, h1, ?_, rfl, ?_⟩
  · simp [disableRawMode, tcsetattr, hset2]
  · simp

/-- Witness for C4 on a cooked Linux terminal: raw mode really differs from the
initial attributes, and the round trip restores them. -/
theorem C4_round_trip_witness :
    makeRaw linux cooked ≠ cooked ∧
    ∃ w1 w2, enableRawMode linux (boot linux (envOf []) cooked) = .ret () w1 ∧
      disableRawMode w1 = .ret () w2 ∧ w2.tty = cooked :=
  ⟨by decide,
    (C4_round_trip linux (boot linux (envOf []) cooked) rfl rfl rfl).elim fun w1 h =>
      h.elim fun w2 h2 => ⟨w1, w2, h2.1, h2.2.1, h2.2.2.2.1⟩⟩

/-! ## Claims about the key read -/

/-- One iteration of the loop of `editorReadKey` on a retried read outcome. -/
theorem editorReadKey_retry (K : Consts) (w : World)
    (h : retried K (w.env.readRes w.nread)) :
    ∃ w1, (∀ fuel, editorReadKey K (fuel + 1) w = editorReadKey K fuel w1) ∧
      sameTerminal w w1 ∧ w1.nread = w.nread + 1 ∧
      bytesConsumed w1.trace = bytesConsumed w.trace := by
  rcases h with h | h
  · exact ⟨{ w with nread := w.nread + 1, trace := w.trace ++ [.read .zero] },
      by simp [editorReadKey, read, h], by simp [sameTerminal], rfl,
      by simp [bytesConsumed_append, bytesConsumed]⟩
  · exact ⟨{ w with
        nread := w.nread + 1, errno := K.EAGAIN, trace := w.trace ++ [.read (.err K.EAGAIN)] },
      by simp [editorReadKey, read, h], by simp [sameTerminal], rfl,
      by simp [bytesConsumed_append, bytesConsumed]⟩

/-- The loop of `editorReadKey` passes over any number of retried read outcomes,
touching neither the terminal nor the input bytes. -/
theorem editorReadKey_skip (K : Consts) (n : Nat) :
    ∀ (w : World), (∀ i, i < n → retried K (w.env.readRes (w.nread + i))) →
      ∃ w1, (∀ fuel, editorReadKey K (n + fuel) w = editorReadKey K fuel w1) ∧
        sameTerminal w w1 ∧ w1.nread = w.nread + n ∧
        bytesConsumed w1.trace = bytesConsumed w.trace := by
  induction n with
  | zero =>
    intro w _
    exact ⟨w, by simp, by simp [sameTerminal], rfl, rfl⟩
  | succ n ih =>
    intro w h
    obtain ⟨w1, h1, hs1, hn1, hb1⟩ := ih w (fun i hi => h i (Nat.lt_succ_of_lt hi))
    have hr : retried K (w1.env.readRes w1.nread) := by
      rw [hs1.1, hn1]; exact h n (Nat.lt_succ_self n)
    obtain ⟨w2, h2, hs2, hn2, hb2⟩ := editorReadKey_retry K w1 hr
    refine ⟨w2, ?_, ?_, ?_, ?_⟩
    · intro fuel
      rw [show n + 1 + fuel = n + (fuel + 1) by omega, h1, h2]
    · obtain ⟨a, b, c, d, e, f⟩ := hs1
      obtain ⟨a2, b2, c2, d2, e2, f2⟩ := hs2
      exact ⟨a2.trans a, b2.trans b, c2.trans c, d2.trans d, e2.trans e, f2.trans f⟩
    · rw [hn2, hn1]; omega
    · rw [hb2, hb1]

/-- On input that gives retried outcomes for ever the loop of `editorReadKey`
is still running whatever the fuel. -/
theorem editorReadKey_spins (K : Consts) (fuel : Nat) :
    ∀ (w : World), (∀ i, retried K (w.env.readRes (w.nread + i))) →
      editorReadKey K fuel w = none := by
  induction fuel with
  | zero => intro w _; rfl
  | succ fuel ih =>
    intro w h
    obtain ⟨w1, h1, hs1, hn1, -⟩ := editorReadKey_retry K w (h 0)
    rw [h1 fuel]
    apply ih
    intro i
    rw [hs1.1, hn1, show w.nread + 1 + i = w.nread + (i + 1) by omega]
    exact h (i + 1)

/-- A key read either returns a byte or dies in `die("read")`, and in both cases
has left the terminal, the snapshot and the handlers as they were. -/
theorem editorReadKey_cases (K : Consts) (fuel : Nat) :
    ∀ (w : World) (r : Res Nat), editorReadKey K fuel w = some r →
      (∃ c w1, r = .ret c w1 ∧ sameTerminal w w1) ∨
      (∃ w1, r = die "read" w1 ∧ sameTerminal w w1) := by
  induction fuel with
  | zero => intro w r h; simp [editorReadKey] at h
  | succ fuel ih =>
    intro w r h
    have hsame : ∀ w2, sameTerminal (read w).2 w2 → sameTerminal w w2 := by
      intro w2 h2
      have : sameTerminal w (read w).2 := by
        unfold read
        cases w.env.readRes w.nread <;> simp [sameTerminal]
      obtain ⟨a, b, c, d, e, f⟩ := this
      obtain ⟨a2, b2, c2, d2, e2, f2⟩ := h2
      exact ⟨a2.trans a, b2.trans b, c2.trans c, d2.trans d, e2.trans e, f2.trans f⟩
    have hself : sameTerminal (read w).2 (read w).2 := by simp [sameTerminal]
    unfold editorReadKey at h
    cases hr : w.env.readRes w.nread with
    | byte b =>
      have hrd : read w = (.byte b, (read w).2) := by simp [read, hr]
      rw [hrd] at h
      simp only [Option.some.injEq] at h
      exact .inl ⟨b, _, h.symm, hsame _ hself⟩
    | zero =>
      have hrd : read w = (.zero, (read w).2) := by simp [read, hr]
      rw [hrd] at h
      rcases ih _ r h with ⟨c, w1, h1, h2⟩ | ⟨w1, h1, h2⟩
      · exact .inl ⟨c, w1, h1, hsame _ h2⟩
      · exact .inr ⟨w1, h1, hsame _ h2⟩
    | err e =>
      have hrd : read w = (.err e, (read w).2) := by simp [read, hr]
      rw [hrd] at h
      dsimp only at h
      by_cases he : (read w).2.errno ≠ K.EAGAIN
      · rw [if_pos he] at h
        simp only [Option.some.injEq] at h
        exact .inr ⟨_, h.symm, hsame _ hself⟩
      · rw [if_neg he] at h
        rcases ih _ r h with ⟨c, w1, h1, h2⟩ | ⟨w1, h1, h2⟩
        · exact .inl ⟨c, w1, h1, hsame _ h2⟩
        · exact .inr ⟨w1, h1, hsame _ h2⟩

/-- A successful one-byte read is returned at once. -/
theorem editorReadKey_byte (K : Consts) (fuel b : Nat) (w : World)
    (h : w.env.readRes w.nread = .byte b) :
    editorReadKey K (fuel + 1) w = some (.ret b { w with
      nread := w.nread + 1, trace := w.trace ++ [.read (.byte b)] }) := by
  simp [editorReadKey, read, h]

/-- C9. Plain character passthrough with transparent retry: after `n` reads that
fail with `EAGAIN` and a successful read of the byte `b`, `editorReadKey` (given
fuel for `n + 1` iterations or more) returns exactly `b`, having made `n + 1`
read calls and consumed that one byte, without touching the terminal and without
exiting. -/
theorem C9_plain_char_retry (K : Consts) (b n extra : Nat) (w : World)
    (hfail : ∀ i, i < n → w.env.readRes (w.nread + i) = .err K.EAGAIN)
    (hbyte : w.env.readRes (w.nread + n) = .byte b) :
    ∃ w1, editorReadKey K (n + 1 + extra) w = some (.ret b w1) ∧
      bytesConsumed w1.trace = bytesConsumed w.trace ++ [b] ∧
      w1.nread = w.nread + n + 1 ∧ sameTerminal w w1 := by
  obtain ⟨w0, h0, hs0, hn0, hb0⟩ := editorReadKey_skip K n w (fun i hi => .inr (hfail i hi))
  have hb : w0.env.readRes w0.nread = .byte b := by rw [hs0.1, hn0]; exact hbyte
  refine ⟨{ w0 with nread := w0.nread + 1, trace := w0.trace ++ [.read (.byte b)] },
    ?_, ?_, ?_, ?_⟩
  · rw [show n + 1 + extra = n + (extra + 1) by omega, h0, editorReadKey_byte K extra b w0 hb]
  · simp [bytesConsumed_append, bytesConsumed, hb0]
  · simp [hn0]
  · exact hs0

/-- Witness for C9: two transient failures, then `'a'` (0x61) is returned as 0x61. -/
theorem C9_plain_char_retry_witness :
    ∃ w1, editorReadKey linux 3 delayedInput = some (.ret 0x61 w1) ∧
      bytesConsumed w1.trace = [0x61] ∧ w1.nread = 3 := by
  obtain ⟨w1, h1, h2, h3, -⟩ := C9_plain_char_retry linux 0x61 2 0 delayedInput
    (by decide) (by decide)
  exact ⟨w1, h1, h2, h3⟩

/-- C8. Fatal read error: when the next read returns -1 with an error code other
than `EAGAIN`, `editorReadKey`, and with it `editorProcessKeypress` and the main
loop, ends the process with status 1 after the diagnostic of `die("read")`; no
key is returned, no further read is made and no byte is consumed. -/
theorem C8_fatal_read_error (K : Consts) (e fuel : Nat) (w : World)
    (hread : w.env.readRes w.nread = .err e) (he : e ≠ K.EAGAIN) :
    ∃ w1 rest, editorReadKey K (fuel + 1) w = some (.exited 1 w1) ∧
      editorProcessKeypress K (fuel + 1) w = some (.exited 1 w1) ∧
      mainLoop K (fuel + 1) w = some (1, w1) ∧
      w1.trace = w.trace ++ [.read (.err e), .perror "read" e] ++ rest ∧
      w1.nread = w.nread + 1 ∧
      bytesConsumed w1.trace = bytesConsumed w.trace := by
  obtain ⟨w1, rest, hd, htr, -, -, -, hnr, hbc⟩ := @die_spec Nat "read" { w with
    nread := w.nread + 1, errno := e, trace := w.trace ++ [.read (.err e)] }
  have hk : editorReadKey K (fuel + 1) w = some (.exited 1 w1) := by
    simp only [editorReadKey, read, hread]
    rw [if_pos he, hd]
  refine ⟨w1, rest, hk, ?_, ?_, ?_, hnr, ?_⟩
  · simp [editorProcessKeypress, hk]
  · simp [mainLoop, editorProcessKeypress, hk]
  · simpa using htr
  · simpa [bytesConsumed_append, bytesConsumed] using hbc

/-- Witness for C8: a first read failing with `EIO` ends the process with
status 1 after the diagnostic naming `read`; the byte behind it is never read. -/
theorem C8_fatal_read_error_witness :
    brokenInput.env.readRes brokenInput.nread = .err 5 ∧ 5 ≠ linux.EAGAIN ∧
    ∃ w1 rest, editorReadKey linux 1 brokenInput = some (.exited 1 w1) ∧
      mainLoop linux 1 brokenInput = some (1, w1) ∧
      w1.trace = [.read (.err 5), .perror "read" 5] ++ rest ∧
      w1.nread = 1 ∧ bytesConsumed w1.trace = [] := by
  obtain ⟨w1, rest, h1, -, h3, h4, h5, h6⟩ :=
    C8_fatal_read_error linux 5 0 brokenInput rfl (by decide)
  exact ⟨rfl, by decide, w1, rest, h1, h3, h4, h5, h6⟩

/-- Zero-byte reads followed by a byte: the loop of `editorReadKey` goes round
once per zero-byte read and then returns the byte; the trace shows nothing but
the reads. -/
theorem editorReadKey_zeros (K : Consts) (b extra : Nat) (n : Nat) :
    ∀ (w : World), (∀ i, i < n → w.env.readRes (w.nread + i) = .zero) →
      w.env.readRes (w.nread + n) = .byte b →
      ∃ w1, editorReadKey K (n + 1 + extra) w = some (.ret b w1) ∧
        w1.trace = w.trace ++ List.replicate n (.read .zero) ++ [.read (.byte b)] ∧
        w1.nread = w.nread + n + 1 ∧ sameTerminal w w1 := by
  induction n with
  | zero =>
    intro w _ hb
    exact ⟨{ w with nread := w.nread + 1, trace := w.trace ++ [.read (.byte b)] },
      by rw [show 0 + 1 + extra = extra + 1 by omega]; exact editorReadKey_byte K extra b w hb,
      by simp, by simp, by simp [sameTerminal]⟩
  | succ n ih =>
    intro w hz hb
    have h0 : w.env.readRes w.nread = .zero := hz 0 (Nat.succ_pos n)
    obtain ⟨w1, h1, h2, h3, h4⟩ := ih { w with
        nread := w.nread + 1, trace := w.trace ++ [.read .zero] }
      (fun i hi => by
        have := hz (i + 1) (Nat.succ_lt_succ hi)
        simpa [Nat.add_assoc, Nat.add_comm 1 i] using this)
      (by simpa [Nat.add_assoc, Nat.add_comm 1 n] using hb)
    refine ⟨w1, ?_, ?_, ?_, ?_⟩
    · rw [show n + 1 + 1 + extra = (n + 1 + extra) + 1 by omega]
      simp only [editorReadKey, read, h0]
      exact h1
    · rw [h2]; simp [List.replicate_succ]
    · rw [h3]; simp; omega
    · simpa [sameTerminal] using h4

/-- C7, as the code has it. A zero-byte read is retried: `editorReadKey` goes
round its loop again exactly as for a transient failure and surfaces no
stream-closed error.  After `n` zero-byte reads it is still looping; if a byte
`b` follows it returns `b`, the trace showing nothing but the reads; and on a
stream that returns zero bytes for ever it never returns, whatever the fuel. -/
theorem C7_zero_read_is_retried (K : Consts) (n : Nat) (w : World)
    (hzero : ∀ i, i < n → w.env.readRes (w.nread + i) = .zero) :
    editorReadKey K n w = none ∧
    (∀ b extra, w.env.readRes (w.nread + n) = .byte b →
      ∃ w1, editorReadKey K (n + 1 + extra) w = some (.ret b w1) ∧
        w1.trace = w.trace ++ List.replicate n (.read .zero) ++ [.read (.byte b)] ∧
        w1.nread = w.nread + n + 1 ∧ sameTerminal w w1) ∧
    ((∀ i, w.env.readRes (w.nread + i) = .zero) → ∀ fuel, editorReadKey K fuel w = none) := by
  refine ⟨?_, ?_, ?_⟩
  · obtain ⟨w0, h0, -⟩ := editorReadKey_skip K n w (fun i hi => .inl (hzero i hi))
    have := h0 0
    simpa [editorReadKey] using this
  · intro b extra hb
    exact editorReadKey_zeros K b extra n w hzero hb
  · intro hall fuel
    exact editorReadKey_spins K fuel w (fun i => .inl (hall i))

/-- Witness for C7: three zero-byte reads do not end the key read. -/
theorem C7_zero_read_is_retried_witness :
    (∀ i, i < 3 → closedInput.env.readRes (closedInput.nread + i) = .zero) ∧
    editorReadKey linux 3 closedInput = none :=
  ⟨by decide, (C7_zero_read_is_retried linux 3 closedInput (by decide)).1⟩

/-- C7 as stated fails: on a closed input, where every read returns zero bytes,
the key read never ends, neither with a key nor with an error. -/
theorem C7_counterexample :
    ¬ ∃ fuel r, editorReadKey linux fuel closedInput = some r := by
  rintro ⟨fuel, r, h⟩
  rw [editorReadKey_spins linux fuel closedInput (fun i => .inl (by simp [closedInput, boot,
    envOf, script]))] at h
  cases h

/-- C6, as the code has it. `editorReadKey` does no escape-sequence decoding:
when the input delivers `0x1B` and two more bytes, one call returns the plain
byte 27 having consumed that byte only, and the next two calls return the two
bytes that follow, one each. -/
theorem C6_escape_bytes_returned_singly (K : Consts) (b1 b2 fuel : Nat) (w : World)
    (h0 : w.env.readRes w.nread = .byte 0x1B)
    (h1 : w.env.readRes (w.nread + 1) = .byte b1)
    (h2 : w.env.readRes (w.nread + 2) = .byte b2) :
    ∃ w1 w2 w3, editorReadKey K (fuel + 1) w = some (.ret 0x1B w1) ∧
      bytesConsumed w1.trace = bytesConsumed w.trace ++ [0x1B] ∧
      w1.nread = w.nread + 1 ∧
      editorReadKey K (fuel + 1) w1 = some (.ret b1 w2) ∧
      editorReadKey K (fuel + 1) w2 = some (.ret b2 w3) ∧
      bytesConsumed w3.trace = bytesConsumed w.trace ++ [0x1B, b1, b2] := by
  refine ⟨{ w with nread := w.nread + 1, trace := w.trace ++ [.read (.byte 0x1B)] },
    { w with nread := w.nread + 1 + 1,
             trace := w.trace ++ [.read (.byte 0x1B)] ++ [.read (.byte b1)] },
    { w with nread := w.nread + 1 + 1 + 1,
             trace := w.trace ++ [.read (.byte 0x1B)] ++ [.read (.byte b1)] ++
               [.read (.byte b2)] },
    editorReadKey_byte K fuel _ w h0, ?_, rfl, ?_, ?_, ?_⟩
  · simp [bytesConsumed_append, bytesConsumed]
  · exact editorReadKey_byte K fuel b1 _ h1
  · exact editorReadKey_byte K fuel b2 _ h2
  · simp [bytesConsumed_append, bytesConsumed]

/-- Witness for C6 on the arrow-up sequence `ESC [ A`. -/
theorem C6_escape_bytes_returned_singly_witness :
    ∃ w1 w2 w3, editorReadKey linux 1 arrowUpInput = some (.ret 0x1B w1) ∧
      editorReadKey linux 1 w1 = some (.ret 0x5B w2) ∧
      editorReadKey linux 1 w2 = some (.ret 0x41 w3) := by
  obtain ⟨w1, w2, w3, a, -, -, b, c, -⟩ :=
    C6_escape_bytes_returned_singly linux 0x5B 0x41 0 arrowUpInput rfl rfl rfl
  exact ⟨w1, w2, w3, a, b, c⟩

/-- C6 as stated fails: on the input `ESC [ A` a single key read, even with fuel
for three iterations, returns 27, a plain byte value, having made one read and
consumed the escape byte only; `[` is still waiting to be read. -/
theorem C6_counterexample :
    ∃ w1, editorReadKey linux 3 arrowUpInput = some (.ret 27 w1) ∧
      27 < 256 ∧ bytesConsumed w1.trace = [27] ∧ w1.nread = 1 ∧
      w1.env.readRes w1.nread = .byte 0x5B :=
  ⟨_, rfl, by decide, by decide, rfl, rfl⟩

/-! ## Claims about the process as a whole -/

/-- C10. Capture failure: when the attribute read of `enableRawMode` fails, the
process ends with status 1 whatever the fuel, and all it has done is the failed
`tcgetattr` and the diagnostic naming it: no teardown registered, no attribute
write, no read. -/
theorem C10_capture_failure (K : Consts) (env : Env) (t : Termios) (fuel e : Nat)
    (hget : env.getRes 0 = .err e) :
    ∃ w, main K fuel (boot K env t) = some (1, w) ∧
      w.trace = [.tcgetattr false, .perror "tcgetattr" e] ∧
      w.handlers = [] ∧ attrWrites w.trace = [] ∧ w.nset = 0 ∧ w.nread = 0 ∧ w.tty = t := by
  refine ⟨{ boot K env t with
    nget := 1, errno := e, trace := [.tcgetattr false, .perror "tcgetattr" e] }, ?_, rfl, rfl,
    rfl, rfl, rfl, rfl⟩
  simp [main, enableRawMode, tcgetattr, boot, hget, die, exit, perror, exitFrom]

/-- Witness for C10 on an input that is not a terminal. -/
theorem C10_capture_failure_witness :
    notATerminal.env.getRes 0 = .err 25 ∧
    ∃ w, main linux 0 notATerminal = some (1, w) ∧
      w.trace = [.tcgetattr false, .perror "tcgetattr" 25] ∧ w.tty = cooked := by
  obtain ⟨w, h1, h2, -, -, -, -, h3⟩ :=
    C10_capture_failure linux (script [.err 25] [] [.byte 0x11]) cooked 0 25 rfl
  exact ⟨rfl, w, h1, h2, h3⟩

/-- C5, as the code has it. `disableRawMode` keeps no record of raw mode being
enabled: a call writes the saved snapshot `orig_termios` whatever the state.  Two
calls in a row make two attribute writes of the same snapshot, so when both
succeed the second leaves the terminal as the first left it; and when the second
write fails the second call ends the process with status 1 after the diagnostic
naming `tcsetattr`. -/
theorem C5_disable_writes_every_time (w : World) (hset : w.env.setRes w.nset = .ok) :
    ∃ w1, disableRawMode w = .ret () w1 ∧ w1.tty = w.orig_termios ∧
      attrWrites w1.trace = attrWrites w.trace ++ [w.orig_termios] ∧
      (w.env.setRes (w.nset + 1) = .ok →
        ∃ w2, disableRawMode w1 = .ret () w2 ∧ w2.tty = w1.tty ∧
          attrWrites w2.trace = attrWrites w.trace ++ [w.orig_termios, w.orig_termios]) ∧
      (∀ e, w.env.setRes (w.nset + 1) = .err e →
        ∃ w2 rest, disableRawMode w1 = .exited 1 w2 ∧
          w2.trace = w1.trace ++
            [.tcsetattr w.orig_termios false, .perror "tcsetattr" e] ++ rest) := by
  refine ⟨{ w with
    tty := w.orig_termios, nset := w.nset + 1,
    trace := w.trace ++ [.tcsetattr w.orig_termios true] }, ?_, rfl, ?_, ?_, ?_⟩
  · simp [disableRawMode, tcsetattr, hset]
  · simp [attrWrites_append, attrWrites]
  · intro h2
    refine ⟨{ w with
      tty := w.orig_termios, nset := w.nset + 1 + 1,
      trace := w.trace ++ [.tcsetattr w.orig_termios true] ++
        [.tcsetattr w.orig_termios true] }, ?_, rfl, ?_⟩
    · simp [disableRawMode, tcsetattr, h2]
    · simp [attrWrites_append, attrWrites]
  · intro e h2
    obtain ⟨w2, rest, hd, htr, -⟩ := @die_spec Unit "tcsetattr" { w with
      tty := w.orig_termios, errno := e, nset := w.nset + 1 + 1,
      trace := w.trace ++ [.tcsetattr w.orig_termios true] ++
        [.tcsetattr w.orig_termios false] }
    refine ⟨w2, rest, ?_, ?_⟩
    · simp only [disableRawMode, tcsetattr, h2]
      exact hd
    · simpa using htr

/-- Witness for C5: called before raw mode was ever enabled, `disableRawMode`
writes the zero-initialised snapshot over the terminal's attributes. -/
theorem C5_disable_writes_every_time_witness :
    closedInput.env.setRes closedInput.nset = .ok ∧
    ∃ w1, disableRawMode closedInput = .ret () w1 ∧
      w1.tty = ⟨0, 0, 0, 0, List.replicate 32 0⟩ ∧
      attrWrites w1.trace = [⟨0, 0, 0, 0, List.replicate 32 0⟩] := by
  obtain ⟨w1, h1, h2, h3, -⟩ := C5_disable_writes_every_time closedInput rfl
  exact ⟨rfl, w1, h1, h2, h3⟩

/-- C5 as stated fails: in raw mode two calls of `disableRawMode` in a row make
two attribute writes; the second call ends the process with status 1 when its
write fails; and a call made when raw mode was never enabled makes an attribute
write that changes the terminal. -/
theorem C5_counterexample :
    (∃ w1 w2, disableRawMode rawSession = .ret () w1 ∧ disableRawMode w1 = .ret () w2 ∧
      attrWrites rawSession.trace = [makeRaw linux cooked] ∧
      attrWrites w1.trace = [makeRaw linux cooked, cooked] ∧
      attrWrites w2.trace = [makeRaw linux cooked, cooked, cooked]) ∧
    (∃ w1 w2, disableRawMode rawSessionFailing = .ret () w1 ∧
      disableRawMode w1 = .exited 1 w2) ∧
    (∃ w1, disableRawMode closedInput = .ret () w1 ∧
      attrWrites closedInput.trace = [] ∧ (attrWrites w1.trace).length = 1 ∧
      closedInput.tty = cooked ∧ w1.tty ≠ cooked) :=
  ⟨⟨_, _, rfl, rfl, by decide, by decide, by decide⟩, ⟨_, _, rfl, rfl⟩,
    ⟨_, rfl, by decide, by decide, rfl, by decide⟩⟩

/-- A process ends with the status passed to `exit`, or with status 1. -/
theorem exitFrom_status_cases (hs : List Handler) :
    ∀ (status : Nat) (w : World),
      (exitFrom hs status w).1 = status ∨ (exitFrom hs status w).1 = 1 := by
  induction hs with
  | nil => intro status w; exact .inl rfl
  | cons h hs ih =>
    intro status w
    cases h
    cases hr : w.env.setRes w.nset with
    | ok => simpa [exitFrom, tcsetattr, hr] using ih status _
    | err e => simp [exitFrom, tcsetattr, hr, exitFrom_status_one]

/-- C2, as the code has it. `CTRL_KEY('q')` is 17, and for every byte `c` the key
read returns, `editorProcessKeypress` ends the process if and only if `c = 17`.
It does so through `exit(0)`: the status is 0 when every restoring write of the
exit-time teardown succeeds, and 0 or 1 in general.  For every other byte it
returns with the world as the key read left it: terminal attributes, snapshot
and registered handlers unchanged, the process still running. -/
theorem C2_quit_chord (K : Consts) (fuel c : Nat) (w w1 : World)
    (hkey : editorReadKey K fuel w = some (.ret c w1)) :
    CTRL_KEY 113 = 17 ∧
    ((∃ s w2, editorProcessKeypress K fuel w = some (.exited s w2)) ↔ c = 17) ∧
    (c = 17 → editorProcessKeypress K fuel w = some (exit 0 w1)) ∧
    (c = 17 → ∃ s w2, editorProcessKeypress K fuel w = some (.exited s w2) ∧
      (s = 0 ∨ s = 1) ∧
      ((∀ k, w1.nset ≤ k → w1.env.setRes k = .ok) → s = 0)) ∧
    (c ≠ 17 → editorProcessKeypress K fuel w = some (.ret () w1) ∧ sameTerminal w w1) := by
  have h17 : CTRL_KEY 113 = 17 := by decide
  have hsame : sameTerminal w w1 := by
    rcases editorReadKey_cases K fuel w _ hkey with ⟨c2, w2, h, hs⟩ | ⟨w2, h, -⟩
    · cases h; exact hs
    · simp [die, exit] at h
  have hq : c = 17 → editorProcessKeypress K fuel w = some (exit 0 w1) := by
    intro hc
    simp [editorProcessKeypress, hkey, h17, hc]
  have hn : c ≠ 17 → editorProcessKeypress K fuel w = some (.ret () w1) := by
    intro hc
    simp [editorProcessKeypress, hkey, h17, hc]
  refine ⟨h17, ⟨?_, ?_⟩, hq, ?_, fun hc => ⟨hn hc, hsame⟩⟩
  · rintro ⟨s, w2, h⟩
    by_contra hc
    rw [hn hc] at h
    cases h
  · intro hc
    exact ⟨_, _, by rw [hq hc]; rfl⟩
  · intro hc
    refine ⟨(exitFrom w1.handlers 0 w1).1, (exitFrom w1.handlers 0 w1).2, by rw [hq hc]; rfl,
      exitFrom_status_cases _ 0 w1, fun hok => exitFrom_status_ok _ 0 w1 hok⟩

/-- Witness for C2: on `'a'` the dispatch returns to the loop, and on the quit
chord read next it ends the process with status 0. -/
theorem C2_quit_chord_witness :
    editorReadKey linux 1 quitRaw = some (.ret 0x61 (read quitRaw).2) ∧
    editorProcessKeypress linux 1 quitRaw = some (.ret () (read quitRaw).2) ∧
    editorReadKey linux 1 (read quitRaw).2 = some (.ret 0x11 (read (read quitRaw).2).2) ∧
    ∃ w3, editorProcessKeypress linux 1 (read quitRaw).2 = some (.exited 0 w3) := by
  refine ⟨rfl, ((C2_quit_chord linux 1 0x61 quitRaw _ rfl).2.2.2.2 (by decide)).1, rfl, ?_⟩
  obtain ⟨s, w3, h, -, hs⟩ :=
    (C2_quit_chord linux 1 0x11 (read quitRaw).2 _ rfl).2.2.2.1 rfl
  have h0 : s = 0 := hs (fun k _ => by simp [read, quitRaw, quitSession, enableRawMode,
    Res.world, tcgetattr, tcsetattr, atexit, boot, envOf, script])
  exact ⟨w3, by rw [h, h0]⟩

/-- C2 as stated fails: the quit chord is read and `exit(0)` called, but the
restoring write of the teardown fails, `disableRawMode` calls `die`, and the
process ends with status 1. -/
theorem C2_counterexample :
    ∃ w0 w1 w2, enableRawMode linux quitRestoreFails = .ret () w0 ∧
      editorReadKey linux 1 w0 = some (.ret 17 w1) ∧
      editorProcessKeypress linux 1 w0 = some (.exited 1 w2) ∧
      main linux 1 quitRestoreFails = some (1, w2) :=
  ⟨_, _, _, rfl, rfl, rfl, rfl⟩

/-- Once armed, `exit` runs the teardown and leaves the process restored. -/
theorem exit_restores {α : Type} (t : Termios) (status : Nat) (w : World)
    (h : armed t w) :
    ∃ s w1, (exit status w : Res α) = .exited s w1 ∧ restored t w1 := by
  obtain ⟨ho, hh, hg⟩ := h
  refine ⟨_, _, rfl, ?_⟩
  rw [hh]
  cases hr : w.env.setRes w.nset with
  | ok =>
    refine ⟨by simp [exitFrom, tcsetattr, hr, ho], by simp [exitFrom, tcsetattr, hr, hg],
      w.trace, true, [], ?_, fun _ => ⟨rfl, ?_⟩⟩
    · simp [exitFrom, tcsetattr, hr, ho]
    · simp [exitFrom, tcsetattr, hr, ho]
  | err e =>
    refine ⟨by simp [exitFrom, tcsetattr, hr, ho, perror],
      by simp [exitFrom, tcsetattr, hr, hg, perror],
      w.trace, false, [.perror "tcsetattr" e], ?_, fun h => by cases h⟩
    simp [exitFrom, tcsetattr, hr, ho, perror]

/-- Once armed, `die` runs the teardown and leaves the process restored. -/
theorem die_restores {α : Type} (t : Termios) (str : String) (w : World)
    (h : armed t w) :
    ∃ s w1, (die str w : Res α) = .exited s w1 ∧ restored t w1 :=
  exit_restores t 1 (perror str w) h

/-- Once armed, the main loop can only end restored. -/
theorem mainLoop_restores (K : Consts) (t : Termios) (fuel : Nat) :
    ∀ (w : World) (status : Nat) (w1 : World), armed t w →
      mainLoop K fuel w = some (status, w1) → restored t w1 := by
  induction fuel with
  | zero => intro w status w1 _ h; simp [mainLoop] at h
  | succ fuel ih =>
    intro w status w1 ha h
    unfold mainLoop editorProcessKeypress at h
    cases hk : editorReadKey K (fuel + 1) w with
    | none => simp [hk] at h
    | some r =>
      rw [hk] at h
      have harm : ∀ w2, sameTerminal w w2 → armed t w2 := by
        rintro w2 ⟨-, -, ho, hh, hg, -⟩
        exact ⟨ho.trans ha.1, hh.trans ha.2.1, hg.trans ha.2.2⟩
      rcases editorReadKey_cases K (fuel + 1) w r hk with ⟨c, w2, hr, hs⟩ | ⟨w2, hr, hs⟩
      · subst hr
        dsimp only at h
        by_cases hc : c = CTRL_KEY 113
        · rw [if_pos hc] at h
          obtain ⟨s, w3, he, hres⟩ := @exit_restores Unit t 0 w2 (harm w2 hs)
          rw [he] at h
          simp only [Option.some.injEq, Prod.mk.injEq] at h
          rw [← h.2]; exact hres
        · rw [if_neg hc] at h
          exact ih w2 status w1 (harm w2 hs) h
      · obtain ⟨s, w3, he, hres⟩ := @die_restores Nat t "read" w2 (harm w2 hs)
        rw [hr, he] at h
        simp only [Option.some.injEq, Prod.mk.injEq] at h
        rw [← h.2]; exact hres

/-- C1. Restoration on every exit path: for every terminal attribute set `t` and
every environment in which the capture succeeds, whenever a run of `main`
terminates, the snapshot `orig_termios` is still `t`, the only attribute read
ever made is the capture, and the trace shows the registered teardown being run
and writing `t` back; if that restoring write succeeds it is the last thing the
process does and the terminal's attributes are `t`. -/
theorem C1_restoration_on_every_exit_path (K : Consts) (env : Env) (t : Termios)
    (fuel status : Nat) (w : World)
    (hcap : env.getRes 0 = .ok)
    (hrun : main K fuel (boot K env t) = some (status, w)) :
    w.orig_termios = t ∧ w.nget = 1 ∧
    ∃ pre ok post, w.trace = pre ++ [.handler .disableRawMode, .tcsetattr t ok] ++ post ∧
      (ok = true → post = [] ∧ w.tty = t) := by
  show restored t w
  unfold main enableRawMode at hrun
  have hg : tcgetattr (boot K env t) = (some t, { boot K env t with
      nget := 1, trace := [.tcgetattr true] }) := by
    simp [tcgetattr, boot, hcap]
  rw [hg] at hrun
  dsimp only at hrun
  cases hr : env.setRes 0 with
  | ok =>
    have harm : armed t { boot K env t with
        tty := makeRaw K t, nget := 1, nset := 1, orig_termios := t,
        handlers := [.disableRawMode],
        trace := [.tcgetattr true, .atexit .disableRawMode, .tcsetattr (makeRaw K t) true] } :=
      ⟨rfl, rfl, rfl⟩
    simp only [tcsetattr, atexit, boot, hr] at hrun
    exact mainLoop_restores K t fuel _ status w harm hrun
  | err e =>
    have harm : armed t { boot K env t with
        errno := e, nget := 1, nset := 1, orig_termios := t,
        handlers := [.disableRawMode],
        trace := [.tcgetattr true, .atexit .disableRawMode, .tcsetattr (makeRaw K t) false] } :=
      ⟨rfl, rfl, rfl⟩
    obtain ⟨s, w3, he, hres⟩ := @die_restores Unit t "tcsetattr" _ harm
    simp only [tcsetattr, atexit, boot, hr] at hrun
    simp only [boot] at he
    simp only [List.nil_append, List.cons_append] at hrun he
    rw [he] at hrun
    simp only [Option.some.injEq, Prod.mk.injEq] at hrun
    rw [← hrun.2]; exact hres

/-- Witness for C1, one run for each way the process ends after the capture:
the quit chord (status 0), the raw attribute set failing to apply (status 1) and
a fatal read error (status 1).  Each run ends with the terminal holding the
attributes it started with. -/
theorem C1_restoration_on_every_exit_path_witness :
    (∃ w, main linux 2 quitSession = some (0, w) ∧ w.tty = cooked ∧
      w.orig_termios = cooked ∧ w.nget = 1 ∧
      ∃ pre ok post, w.trace = pre ++ [.handler .disableRawMode, .tcsetattr cooked ok] ++ post ∧
        (ok = true → post = [] ∧ w.tty = cooked)) ∧
    (∃ w, main linux 0 applyFails = some (1, w) ∧ w.tty = cooked ∧
      w.orig_termios = cooked ∧ w.nget = 1 ∧
      ∃ pre ok post, w.trace = pre ++ [.handler .disableRawMode, .tcsetattr cooked ok] ++ post ∧
        (ok = true → post = [] ∧ w.tty = cooked)) ∧
    (∃ w, main linux 1 brokenInput = some (1, w) ∧ w.tty = cooked ∧
      w.orig_termios = cooked ∧ w.nget = 1 ∧
      ∃ pre ok post, w.trace = pre ++ [.handler .disableRawMode, .tcsetattr cooked ok] ++ post ∧
        (ok = true → post = [] ∧ w.tty = cooked)) :=
  ⟨⟨_, rfl, rfl, C1_restoration_on_every_exit_path linux (envOf [.byte 0x61, .byte 0x11])
      cooked 2 0 _ rfl rfl⟩,
    ⟨_, rfl, rfl, C1_restoration_on_every_exit_path linux (script [] [.err 5] [])
      cooked 0 1 _ rfl rfl⟩,
    ⟨_, rfl, rfl, C1_restoration_on_every_exit_path linux (envOf [.err 5, .byte 0x61])
      cooked 1 1 _ rfl rfl⟩⟩

end Vim
